import Mathlib

/-!
Shallow embedding of `nrrp_referral_tracker.py`: the referral data model,
the validation engine, the join/leave event handlers' database effects,
the admin validation command, the member-history population commands and
the leaderboard query, together with theorems about them.

Discord ids are modelled as `Nat` (the program converts between the TEXT
column and `int` ids losslessly for ids it wrote itself), timestamps as
`Nat`, role objects by their names, and each SQLite table as a `List` of
row structures in insertion order.
-/

namespace NRRP

/-- A guild member as seen through `guild.get_member`: id, display name and
the names of the roles the member currently holds. -/
structure Member where
  id : Nat
  name : String
  roles : List String
deriving DecidableEq, Repr

/-- The live guild state used by the handlers: the set of role names that
exist in the guild and the current membership roster. -/
structure Guild where
  roles : List String
  members : List Member
deriving DecidableEq, Repr

/-- One row of the `referrals` table (`setup_database`). -/
structure Referral where
  inviter_id : Nat
  inviter_name : String
  invited_id : Nat
  invited_name : String
  invite_code : String
  joined_at : Nat
  is_validated : Bool
  has_resident_role : Bool
  is_member_active : Bool
  was_previous_resident : Bool
deriving DecidableEq, Repr

/-- One row of the `member_history` table. -/
structure HistoryEntry where
  member_id : Nat
  member_name : String
  action : String
  timestamp : Nat
  had_resident : Bool
deriving DecidableEq, Repr

/-- The persistent store: the `referrals` and `member_history` tables in
row-insertion order (the `audit_log` table is not needed by any claim). -/
structure DB where
  referrals : List Referral
  history : List HistoryEntry
deriving DecidableEq, Repr

/-- A Discord invite as listed by `guild.invites()`: code, use count and
the inviter's identity. -/
structure Invite where
  code : String
  uses : Nat
  inviter_id : Nat
  inviter_name : String
deriving DecidableEq, Repr

/-- `guild.get_member(id)`: look the member up in the roster. -/
def getMember (g : Guild) (id : Nat) : Option Member :=
  g.members.find? (fun m => m.id == id)

/-- `discord.utils.get(guild.roles, name='Resident') is not None`. -/
def residentRoleExists (g : Guild) : Bool :=
  g.roles.contains "Resident"

/-- `resident_role in member.roles` for the member found via
`guild.get_member(id)`; `false` when the member is absent. -/
def memberIsResident (g : Guild) (id : Nat) : Bool :=
  match getMember g id with
  | some m => m.roles.contains "Resident"
  | none => false

/-! ## validate_referrals -/

/-- The reset phase of `validate_referrals`:
`UPDATE referrals SET is_validated = FALSE, has_resident_role = FALSE,
was_previous_resident = FALSE`, applied to one row. -/
def resetRow (r : Referral) : Referral :=
  { r with is_validated := false, has_resident_role := false,
           was_previous_resident := false }

/-- The per-pair update of `validate_referrals`:
`UPDATE referrals SET is_validated = TRUE, has_resident_role = TRUE,
was_previous_resident = TRUE WHERE inviter_id = ? AND invited_id = ?`,
applied to one row. -/
def validateRowUpdate (inviterId invitedId : Nat) (r : Referral) : Referral :=
  if r.inviter_id == inviterId && r.invited_id == invitedId then
    { r with is_validated := true, has_resident_role := true,
             was_previous_resident := true }
  else r

/-- Inside the validation loop: insert a `got_resident` history row for a
member unless some row already records the member with `had_resident = TRUE`. -/
def recordResidentHistory (now : Nat) (m : Member) (h : List HistoryEntry) :
    List HistoryEntry :=
  if h.any (fun e => e.member_id == m.id && e.had_resident) then h
  else h ++ [⟨m.id, m.name, "got_resident", now, true⟩]

/-- Both parties of an active pair are found in the roster and hold the
Resident role — the validation condition of the loop body. -/
def pairValidated (g : Guild) (p : Nat × Nat) : Bool :=
  match getMember g p.1, getMember g p.2 with
  | some inviter, some invited =>
      inviter.roles.contains "Resident" && invited.roles.contains "Resident"
  | _, _ => false

/-- One iteration of the `for inviter_id, invited_id in referrals` loop of
`validate_referrals`: on success, apply the pair update to every row and
record history for the inviter then the invited member. -/
def validateStep (g : Guild) (now : Nat)
    (st : List Referral × List HistoryEntry) (p : Nat × Nat) :
    List Referral × List HistoryEntry :=
  match getMember g p.1, getMember g p.2 with
  | some inviter, some invited =>
      if inviter.roles.contains "Resident" && invited.roles.contains "Resident" then
        (st.1.map (validateRowUpdate p.1 p.2),
         recordResidentHistory now invited (recordResidentHistory now inviter st.2))
      else st
  | _, _ => st

/-- The `(inviter_id, invited_id)` pairs of
`SELECT inviter_id, invited_id FROM referrals WHERE is_member_active = TRUE`,
in row order. -/
def activePairs (refs : List Referral) : List (Nat × Nat) :=
  (refs.filter (fun r => r.is_member_active)).map (fun r => (r.inviter_id, r.invited_id))

/-- `validate_referrals(guild)`: return unchanged when the Resident role is
missing; otherwise reset every row's three flags, then run the loop over
the active pairs. -/
def validateReferrals (g : Guild) (now : Nat) (db : DB) : DB :=
  if residentRoleExists g then
    let reset := db.referrals.map resetRow
    let st := (activePairs reset).foldl (validateStep g now) (reset, db.history)
    ⟨st.1, st.2⟩
  else db

/-! ## validate_referrals_command (the admin `!validate` command) -/

/-- The reset phase of the admin command: `UPDATE referrals SET
is_validated = FALSE, has_resident_role = FALSE` — `was_previous_resident`
is not touched. -/
def resetRowCommand (r : Referral) : Referral :=
  { r with is_validated := false, has_resident_role := false }

/-- The per-pair update of the admin command: sets `is_validated` and
`has_resident_role` only, leaving `was_previous_resident` alone. -/
def validateRowUpdateCommand (inviterId invitedId : Nat) (r : Referral) : Referral :=
  if r.inviter_id == inviterId && r.invited_id == invitedId then
    { r with is_validated := true, has_resident_role := true }
  else r

/-- One loop iteration of the admin command; it writes no history rows. -/
def validateStepCommand (g : Guild) (refs : List Referral) (p : Nat × Nat) :
    List Referral :=
  match getMember g p.1, getMember g p.2 with
  | some inviter, some invited =>
      if inviter.roles.contains "Resident" && invited.roles.contains "Resident" then
        refs.map (validateRowUpdateCommand p.1 p.2)
      else refs
  | _, _ => refs

/-- `validate_referrals_command`: returns before touching the store when
the Resident role is missing; otherwise reset (two flags), then loop. -/
def validateReferralsCommand (g : Guild) (db : DB) : DB :=
  if residentRoleExists g then
    let reset := db.referrals.map resetRowCommand
    ⟨(activePairs reset).foldl (validateStepCommand g) reset, db.history⟩
  else db

/-! ## on_member_join: database effect (lines 525–612) -/

/-- `SELECT COUNT(*) FROM member_history WHERE member_id = ? AND
had_resident = TRUE AND action = 'leave'` > 0. -/
def wasResidentBefore (h : List HistoryEntry) (id : Nat) : Bool :=
  h.any (fun e => e.member_id == id && e.had_resident && e.action == "leave")

/-- `SELECT COUNT(*) FROM referrals WHERE invited_id = ?` > 0. -/
def hasPreviousRecord (refs : List Referral) (id : Nat) : Bool :=
  refs.any (fun r => r.invited_id == id)

/-- The reactivation update of `on_member_join`: `UPDATE referrals SET
is_member_active = TRUE, is_validated = FALSE, was_previous_resident = ?
WHERE invited_id = ?`, applied to one row. -/
def reactivateRow (wasRes : Bool) (id : Nat) (r : Referral) : Referral :=
  if r.invited_id == id then
    { r with is_member_active := true, is_validated := false,
             was_previous_resident := wasRes }
  else r

/-- The attribution loop of `on_member_join`: scan the refreshed invite
listing in order and return the first invite with no cached counterpart or
whose use count exceeds its cached count. -/
def findInviteUsed (cache : List Invite) : List Invite → Option Invite
  | [] => none
  | i :: rest =>
      match cache.find? (fun x => x.code == i.code) with
      | none => some i
      | some cached => if cached.uses < i.uses then some i else findInviteUsed cache rest

/-- The row inserted for a fresh referral (`INSERT INTO referrals ...`);
`is_validated` and `has_resident_role` take their FALSE column defaults. -/
def newReferral (inv : Invite) (m : Member) (now : Nat) (wasRes : Bool) : Referral :=
  { inviter_id := inv.inviter_id, inviter_name := inv.inviter_name,
    invited_id := m.id, invited_name := m.name, invite_code := inv.code,
    joined_at := now, is_validated := false, has_resident_role := false,
    is_member_active := true, was_previous_resident := wasRes }

/-- The database transaction of `on_member_join` (before the follow-up
validation pass): reactivate an existing record if one exists, attribute
the join to an invite, insert a new row only when attribution succeeded
and no previous record exists, and append a `join` history row. -/
def onMemberJoin (m : Member) (invitesAfter cache : List Invite) (now : Nat)
    (db : DB) : DB :=
  let wasRes := wasResidentBefore db.history m.id
  let hasPrev := hasPreviousRecord db.referrals m.id
  let refs1 := if hasPrev then db.referrals.map (reactivateRow wasRes m.id)
               else db.referrals
  let refs2 := match findInviteUsed cache invitesAfter with
    | some inv => if hasPrev then refs1 else refs1 ++ [newReferral inv m now wasRes]
    | none => refs1
  ⟨refs2, db.history ++ [⟨m.id, m.name, "join", now, wasRes⟩]⟩

/-! ## on_member_remove: database effect (lines 637–671) -/

/-- The leave update: `UPDATE referrals SET is_validated = FALSE,
is_member_active = FALSE, was_previous_resident = ? WHERE invited_id = ?`,
applied to one row. -/
def leaveRow (hadRes : Bool) (id : Nat) (r : Referral) : Referral :=
  if r.invited_id == id then
    { r with is_validated := false, is_member_active := false,
             was_previous_resident := hadRes }
  else r

/-- The database transaction of `on_member_remove`: append a `leave`
history row and deactivate only the rows where the leaver is the invitee. -/
def onMemberRemove (m : Member) (now : Nat) (db : DB) : DB :=
  let hadRes := m.roles.contains "Resident"
  ⟨db.referrals.map (leaveRow hadRes m.id),
   db.history ++ [⟨m.id, m.name, "leave", now, hadRes⟩]⟩

/-! ## populate_member_history and the resethistory command -/

/-- `populate_member_history(guild)`: skip when history is non-empty or the
Resident role is missing; otherwise insert a `CURRENT` row for every
roster member holding the Resident role. -/
def populateMemberHistory (g : Guild) (now : Nat) (db : DB) : DB :=
  if 0 < db.history.length then db
  else if residentRoleExists g then
    let rows : List HistoryEntry :=
      (g.members.filter (fun m => m.roles.contains "Resident")).map
        (fun m => ⟨m.id, m.name, "CURRENT", now, true⟩)
    { db with history := db.history ++ rows }
  else db

/-- `reset_member_history` (the `!resethistory` admin command): drop and
recreate `member_history`, then repopulate it from the current roster. -/
def resetMemberHistory (g : Guild) (now : Nat) (db : DB) : DB :=
  populateMemberHistory g now { db with history := [] }

/-! ## The leaderboard query -/

/-- The hard-coded `WHERE inviter_id != '845819834696597504' AND
inviter_id != '851302798247067678'` denylist. -/
def denylisted (id : Nat) : Bool :=
  id == 845819834696597504 || id == 851302798247067678

/-- One aggregated leaderboard entry (one `GROUP BY inviter_id,
inviter_name` group). -/
structure LBEntry where
  inviter_id : Nat
  inviter_name : String
  validated : Nat
  pending : Nat
  total : Nat
deriving DecidableEq, Repr

/-- The `SUM(CASE ...)` aggregates of one group: validated, pending and
total counts over the group's rows. -/
def aggFor (refs : List Referral) (k : Nat × String) : LBEntry :=
  let rows := refs.filter (fun r => r.inviter_id == k.1 && r.inviter_name == k.2)
  { inviter_id := k.1, inviter_name := k.2,
    validated := (rows.filter (fun r => r.is_validated && r.is_member_active)).length,
    pending := (rows.filter (fun r => !r.is_validated && r.is_member_active)).length,
    total := (rows.filter (fun r => r.is_member_active)).length }

/-- `ORDER BY validated_count DESC, total_count DESC` as a "may come
before" Boolean relation on entries. -/
def lbBefore (a b : LBEntry) : Bool :=
  b.validated < a.validated || (a.validated == b.validated && decide (b.total ≤ a.total))

/-- `lbBefore` as a relation, for sorting. -/
def lbRel (a b : LBEntry) : Prop :=
  lbBefore a b = true

instance : DecidableRel lbRel := fun a b => by
  unfold lbRel
  infer_instance

instance : IsTotal LBEntry lbRel := by
  refine ⟨fun a b => ?_⟩
  unfold lbRel lbBefore
  simp only [Bool.or_eq_true, Bool.and_eq_true, decide_eq_true_eq, Nat.beq_eq_true_eq]
  omega

instance : IsTrans LBEntry lbRel := by
  refine ⟨fun a b c hab hbc => ?_⟩
  unfold lbRel lbBefore at *
  simp only [Bool.or_eq_true, Bool.and_eq_true, decide_eq_true_eq,
    Nat.beq_eq_true_eq] at *
  omega

/-- The leaderboard query shared by `update_leaderboard` and
`show_leaderboard`: filter out the denylisted inviters, group by
`(inviter_id, inviter_name)`, aggregate, keep groups with a positive
total (`HAVING total_count > 0`), order by validated then total
descending, and take the first 10. -/
def leaderboardQuery (refs : List Referral) : List LBEntry :=
  let filtered := refs.filter (fun r => !denylisted r.inviter_id)
  let keys := (filtered.map (fun r => (r.inviter_id, r.inviter_name))).dedup
  let entries := (keys.map (aggFor filtered)).filter (fun e => 0 < e.total)
  (entries.insertionSort lbRel).take 10

/-! ## Closed-form characterization of the validation pass -/

/-- The three-flag success update of the validation loop, as a function of
the row alone. -/
def vset (r : Referral) : Referral :=
  { r with is_validated := true, has_resident_role := true,
           was_previous_resident := true }

/-- The two-flag success update of the admin command. -/
def vsetCommand (r : Referral) : Referral :=
  { r with is_validated := true, has_resident_role := true }

/-- A row is hit by the validation loop over the pair list `ps`: some pair
matches its `(inviter_id, invited_id)` columns and both members of that
pair are Residents in the roster. -/
def validatedHere (g : Guild) (ps : List (Nat × Nat)) (r : Referral) : Bool :=
  ps.any (fun p => (r.inviter_id == p.1 && r.invited_id == p.2) && pairValidated g p)

/-- The net effect of one validation pass on a single row, given the pair
list `ps` the loop ran over. -/
def validateRowClosed (g : Guild) (ps : List (Nat × Nat)) (r : Referral) : Referral :=
  if validatedHere g ps r then vset r else resetRow r

/-- The net effect of one admin-command pass on a single row. -/
def commandRowClosed (g : Guild) (ps : List (Nat × Nat)) (r : Referral) : Referral :=
  if validatedHere g ps r then vsetCommand r else resetRowCommand r

/-- The row contents the two passes agree on: everything except
`was_previous_resident`. -/
def stripWPR (r : Referral) : Referral :=
  { r with was_previous_resident := false }

/-- The loop-body test of the attribution scan: the invite has no cached
counterpart, or its use count exceeds the cached one. -/
def inviteIncreased (cache : List Invite) (i : Invite) : Bool :=
  match cache.find? (fun x => x.code == i.code) with
  | none => true
  | some cj => decide (cj.uses < i.uses)

/-- The invite is present in the cached snapshot with a strictly smaller
use count there. -/
def usesIncreasedStrict (cache : List Invite) (i : Invite) : Bool :=
  match cache.find? (fun x => x.code == i.code) with
  | none => false
  | some ci => decide (ci.uses < i.uses)

/-- The invite is present in the cached snapshot with the same use count. -/
def sameCachedUses (cache : List Invite) (j : Invite) : Bool :=
  match cache.find? (fun x => x.code == j.code) with
  | none => false
  | some cj => cj.uses == j.uses

/-- At most one referral row per invitee id: all rows carry pairwise
distinct `invited_id` columns. -/
def oneRowPerInvitee (refs : List Referral) : Prop :=
  refs.Pairwise (fun r s => r.invited_id ≠ s.invited_id)

/-- At most one row with `is_member_active = true` per invitee id. -/
def oneActiveRowPerInvitee (refs : List Referral) : Prop :=
  refs.Pairwise (fun r s =>
    r.is_member_active = true → s.is_member_active = true → r.invited_id ≠ s.invited_id)

instance (refs : List Referral) : Decidable (oneRowPerInvitee refs) := by
  unfold oneRowPerInvitee
  infer_instance

instance (refs : List Referral) : Decidable (oneActiveRowPerInvitee refs) := by
  unfold oneActiveRowPerInvitee
  infer_instance

/-! ## Theorems -/

theorem validateRowUpdate_eq (a b : Nat) (r : Referral) :
    validateRowUpdate a b r =
      if r.inviter_id == a && r.invited_id == b then vset r else r := rfl

theorem validateRowUpdateCommand_eq (a b : Nat) (r : Referral) :
    validateRowUpdateCommand a b r =
      if r.inviter_id == a && r.invited_id == b then vsetCommand r else r := rfl

theorem validateStep_fst (g : Guild) (now : Nat)
    (st : List Referral × List HistoryEntry) (p : Nat × Nat) :
    (validateStep g now st p).1 =
      if pairValidated g p then st.1.map (validateRowUpdate p.1 p.2) else st.1 := by
  unfold validateStep pairValidated
  cases getMember g p.1 <;> cases getMember g p.2 <;> simp <;> split <;> rfl

theorem validateStepCommand_eq (g : Guild) (refs : List Referral) (p : Nat × Nat) :
    validateStepCommand g refs p =
      if pairValidated g p then refs.map (validateRowUpdateCommand p.1 p.2) else refs := by
  unfold validateStepCommand pairValidated
  cases getMember g p.1 <;> cases getMember g p.2 <;> simp <;> split <;> rfl

theorem validatedHere_nil (g : Guild) (r : Referral) :
    validatedHere g [] r = false := rfl

theorem validatedHere_cons (g : Guild) (p : Nat × Nat) (ps : List (Nat × Nat))
    (r : Referral) :
    validatedHere g (p :: ps) r =
      (((r.inviter_id == p.1 && r.invited_id == p.2) && pairValidated g p) ||
        validatedHere g ps r) := by
  simp [validatedHere]

theorem validatedHere_vset (g : Guild) (ps : List (Nat × Nat)) (r : Referral) :
    validatedHere g ps (vset r) = validatedHere g ps r := rfl

theorem vset_idem (r : Referral) : vset (vset r) = vset r := rfl

theorem pointwise_step_true (g : Guild) (p : Nat × Nat) (ps : List (Nat × Nat))
    (r : Referral) (hp : pairValidated g p = true) :
    (if validatedHere g ps (validateRowUpdate p.1 p.2 r)
       then vset (validateRowUpdate p.1 p.2 r)
       else validateRowUpdate p.1 p.2 r) =
      if validatedHere g (p :: ps) r then vset r else r := by
  rw [validateRowUpdate_eq, validatedHere_cons, hp]
  by_cases hm : (r.inviter_id == p.1 && r.invited_id == p.2) = true
  · simp [hm, validatedHere_vset, vset_idem]
  · rw [Bool.not_eq_true] at hm
    simp [hm]

theorem foldl_validateStep_fst (g : Guild) (now : Nat) :
    ∀ (ps : List (Nat × Nat)) (refs : List Referral) (hist : List HistoryEntry),
    (ps.foldl (validateStep g now) (refs, hist)).1 =
      refs.map (fun r => if validatedHere g ps r then vset r else r) := by
  intro ps
  induction ps with
  | nil =>
      intro refs hist
      simp [validatedHere_nil]
  | cons p ps ih =>
      intro refs hist
      have hstep : validateStep g now (refs, hist) p =
          ((validateStep g now (refs, hist) p).1, (validateStep g now (refs, hist) p).2) := rfl
      rw [List.foldl_cons, hstep, ih, validateStep_fst]
      by_cases hp : pairValidated g p = true
      · simp only [hp, if_true, List.map_map]
        apply List.map_congr_left
        intro r _
        exact pointwise_step_true g p ps r hp
      · simp only [Bool.not_eq_true] at hp
        simp only [hp, if_false]
        apply List.map_congr_left
        intro r _
        rw [validatedHere_cons, hp]
        simp

theorem activePairs_map (f : Referral → Referral)
    (hact : ∀ r, (f r).is_member_active = r.is_member_active)
    (hinv : ∀ r, (f r).inviter_id = r.inviter_id)
    (hinvd : ∀ r, (f r).invited_id = r.invited_id) (l : List Referral) :
    activePairs (l.map f) = activePairs l := by
  unfold activePairs
  rw [List.filter_map, List.map_map]
  have h1 : ((fun r : Referral => r.is_member_active) ∘ f) =
      fun r : Referral => r.is_member_active := by
    funext r
    exact hact r
  have h2 : ((fun r : Referral => (r.inviter_id, r.invited_id)) ∘ f) =
      fun r : Referral => (r.inviter_id, r.invited_id) := by
    funext r
    rw [Function.comp_apply, hinv, hinvd]
  rw [h1, h2]

theorem validateReferrals_referrals_closed (g : Guild) (now : Nat) (db : DB)
    (h : residentRoleExists g = true) :
    (validateReferrals g now db).referrals =
      db.referrals.map (validateRowClosed g (activePairs db.referrals)) := by
  have hpairs : activePairs (db.referrals.map resetRow) = activePairs db.referrals :=
    activePairs_map resetRow (fun _ => rfl) (fun _ => rfl) (fun _ => rfl) _
  simp only [validateReferrals, h, if_true]
  rw [foldl_validateStep_fst, hpairs, List.map_map]
  apply List.map_congr_left
  intro r _
  show (if validatedHere g (activePairs db.referrals) (resetRow r)
          then vset (resetRow r) else resetRow r) = _
  have hv : validatedHere g (activePairs db.referrals) (resetRow r) =
      validatedHere g (activePairs db.referrals) r := rfl
  have hs : vset (resetRow r) = vset r := rfl
  rw [hv, hs]
  rfl

theorem validatedHere_vsetCommand (g : Guild) (ps : List (Nat × Nat)) (r : Referral) :
    validatedHere g ps (vsetCommand r) = validatedHere g ps r := rfl

theorem vsetCommand_idem (r : Referral) : vsetCommand (vsetCommand r) = vsetCommand r := rfl

theorem pointwise_stepCommand_true (g : Guild) (p : Nat × Nat) (ps : List (Nat × Nat))
    (r : Referral) (hp : pairValidated g p = true) :
    (if validatedHere g ps (validateRowUpdateCommand p.1 p.2 r)
       then vsetCommand (validateRowUpdateCommand p.1 p.2 r)
       else validateRowUpdateCommand p.1 p.2 r) =
      if validatedHere g (p :: ps) r then vsetCommand r else r := by
  rw [validateRowUpdateCommand_eq, validatedHere_cons, hp]
  by_cases hm : (r.inviter_id == p.1 && r.invited_id == p.2) = true
  · simp [hm, validatedHere_vsetCommand, vsetCommand_idem]
  · rw [Bool.not_eq_true] at hm
    simp [hm]

theorem foldl_validateStepCommand (g : Guild) :
    ∀ (ps : List (Nat × Nat)) (refs : List Referral),
    ps.foldl (validateStepCommand g) refs =
      refs.map (fun r => if validatedHere g ps r then vsetCommand r else r) := by
  intro ps
  induction ps with
  | nil =>
      intro refs
      simp [validatedHere_nil]
  | cons p ps ih =>
      intro refs
      rw [List.foldl_cons, ih, validateStepCommand_eq]
      by_cases hp : pairValidated g p = true
      · simp only [hp, if_true, List.map_map]
        apply List.map_congr_left
        intro r _
        exact pointwise_stepCommand_true g p ps r hp
      · simp only [Bool.not_eq_true] at hp
        simp only [hp, if_false]
        apply List.map_congr_left
        intro r _
        rw [validatedHere_cons, hp]
        simp

theorem validateReferralsCommand_referrals_closed (g : Guild) (db : DB)
    (h : residentRoleExists g = true) :
    (validateReferralsCommand g db).referrals =
      db.referrals.map (commandRowClosed g (activePairs db.referrals)) := by
  have hpairs : activePairs (db.referrals.map resetRowCommand) = activePairs db.referrals :=
    activePairs_map resetRowCommand (fun _ => rfl) (fun _ => rfl) (fun _ => rfl) _
  simp only [validateReferralsCommand, h, if_true]
  rw [foldl_validateStepCommand, hpairs, List.map_map]
  apply List.map_congr_left
  intro r _
  show (if validatedHere g (activePairs db.referrals) (resetRowCommand r)
          then vsetCommand (resetRowCommand r) else resetRowCommand r) = _
  have hv : validatedHere g (activePairs db.referrals) (resetRowCommand r) =
      validatedHere g (activePairs db.referrals) r := rfl
  have hs : vsetCommand (resetRowCommand r) = vsetCommand r := rfl
  rw [hv, hs]
  rfl

theorem validateReferralsCommand_history (g : Guild) (db : DB) :
    (validateReferralsCommand g db).history = db.history := by
  unfold validateReferralsCommand
  split <;> rfl

theorem validatedHere_resetRow (g : Guild) (ps : List (Nat × Nat)) (r : Referral) :
    validatedHere g ps (resetRow r) = validatedHere g ps r := rfl

theorem validateRowClosed_active (g : Guild) (ps : List (Nat × Nat)) (r : Referral) :
    (validateRowClosed g ps r).is_member_active = r.is_member_active := by
  unfold validateRowClosed
  split <;> rfl

theorem validateRowClosed_inviter (g : Guild) (ps : List (Nat × Nat)) (r : Referral) :
    (validateRowClosed g ps r).inviter_id = r.inviter_id := by
  unfold validateRowClosed
  split <;> rfl

theorem validateRowClosed_invited (g : Guild) (ps : List (Nat × Nat)) (r : Referral) :
    (validateRowClosed g ps r).invited_id = r.invited_id := by
  unfold validateRowClosed
  split <;> rfl

theorem validatedHere_validateRowClosed (g : Guild) (ps qs : List (Nat × Nat))
    (r : Referral) :
    validatedHere g ps (validateRowClosed g qs r) = validatedHere g ps r := by
  unfold validateRowClosed
  split <;> rfl

theorem validateRowClosed_idem (g : Guild) (ps : List (Nat × Nat)) (r : Referral) :
    validateRowClosed g ps (validateRowClosed g ps r) = validateRowClosed g ps r := by
  by_cases hc : validatedHere g ps r = true
  · simp [validateRowClosed, hc, validatedHere_vset, vset_idem]
  · rw [Bool.not_eq_true] at hc
    simp only [validateRowClosed, hc, validatedHere_resetRow, if_false, Bool.false_eq_true]
    rfl

theorem validateReferrals_no_role (g : Guild) (now : Nat) (db : DB)
    (h : residentRoleExists g = false) : validateReferrals g now db = db := by
  simp [validateReferrals, h]

theorem validateReferralsCommand_no_role (g : Guild) (db : DB)
    (h : residentRoleExists g = false) : validateReferralsCommand g db = db := by
  simp [validateReferralsCommand, h]

/-- The validation pass does not touch `is_member_active` nor the id
columns, so the active pair list it would scan is unchanged by it. -/
theorem activePairs_validateReferrals (g : Guild) (now : Nat) (db : DB) :
    activePairs (validateReferrals g now db).referrals = activePairs db.referrals := by
  by_cases h : residentRoleExists g = true
  · rw [validateReferrals_referrals_closed g now db h]
    exact activePairs_map _ (validateRowClosed_active g _)
      (validateRowClosed_inviter g _) (validateRowClosed_invited g _) _
  · rw [Bool.not_eq_true] at h
    rw [validateReferrals_no_role g now db h]

/-- **C7**: running the full validation pass twice in a row against the same
unchanged membership roster yields referral-table row states identical to
running it once — the second pass changes nothing. -/
theorem validate_referrals_idempotent (g : Guild) (now1 now2 : Nat) (db : DB) :
    (validateReferrals g now2 (validateReferrals g now1 db)).referrals =
      (validateReferrals g now1 db).referrals := by
  by_cases h : residentRoleExists g = true
  · rw [validateReferrals_referrals_closed g now2 (validateReferrals g now1 db) h,
        activePairs_validateReferrals g now1 db,
        validateReferrals_referrals_closed g now1 db h, List.map_map]
    apply List.map_congr_left
    intro r _
    exact validateRowClosed_idem g (activePairs db.referrals) r
  · rw [Bool.not_eq_true] at h
    rw [validateReferrals_no_role g now2 _ h]

theorem validateRowClosed_validated (g : Guild) (ps : List (Nat × Nat)) (r : Referral) :
    (validateRowClosed g ps r).is_validated = validatedHere g ps r := by
  unfold validateRowClosed
  cases h : validatedHere g ps r
  · rfl
  · rfl

theorem validateRowClosed_wpr (g : Guild) (ps : List (Nat × Nat)) (r : Referral) :
    (validateRowClosed g ps r).was_previous_resident = validatedHere g ps r := by
  unfold validateRowClosed
  cases h : validatedHere g ps r
  · rfl
  · rfl

/-- `memberIsResident` for both parties is exactly the validation loop's
success condition. -/
theorem pairValidated_eq (g : Guild) (a b : Nat) :
    pairValidated g (a, b) = (memberIsResident g a && memberIsResident g b) := by
  unfold pairValidated memberIsResident
  cases getMember g a <;> cases getMember g b <;> simp

/-- Under one-row-per-pair, a row of the table is hit by the loop over the
table's own active pairs exactly when it is active and both its parties are
Residents. -/
theorem validatedHere_activePairs (g : Guild) (refs : List Referral)
    (hdist : (refs.map (fun r => (r.inviter_id, r.invited_id))).Nodup)
    (r : Referral) (hr : r ∈ refs) :
    validatedHere g (activePairs refs) r =
      (r.is_member_active && pairValidated g (r.inviter_id, r.invited_id)) := by
  by_cases hv : validatedHere g (activePairs refs) r = true
  · rw [hv]
    unfold validatedHere at hv
    rw [List.any_eq_true] at hv
    obtain ⟨p, hp, hcond⟩ := hv
    rw [Bool.and_eq_true, Bool.and_eq_true] at hcond
    obtain ⟨⟨h1, h2⟩, h3⟩ := hcond
    unfold activePairs at hp
    rw [List.mem_map] at hp
    obtain ⟨r1, hr1, hpe⟩ := hp
    rw [List.mem_filter] at hr1
    obtain ⟨hr1m, hr1a⟩ := hr1
    rw [Nat.beq_eq_true_eq] at h1 h2
    have hpe2 : (r1.inviter_id, r1.invited_id) = p := hpe
    have hpair : (fun s : Referral => (s.inviter_id, s.invited_id)) r =
        (fun s : Referral => (s.inviter_id, s.invited_id)) r1 := by
      show (r.inviter_id, r.invited_id) = (r1.inviter_id, r1.invited_id)
      rw [h1, h2, Prod.mk.eta]
      exact hpe2.symm
    have hrr : r = r1 := List.inj_on_of_nodup_map hdist hr hr1m hpair
    subst hrr
    have hpe3 : (r.inviter_id, r.invited_id) = p := hpe2
    rw [hr1a, hpe3, h3]
    rfl
  · rw [Bool.not_eq_true] at hv
    rw [hv]
    cases hact : r.is_member_active with
    | false => rfl
    | true =>
        cases hpv : pairValidated g (r.inviter_id, r.invited_id) with
        | false => rfl
        | true =>
            exfalso
            have hmem : (r.inviter_id, r.invited_id) ∈ activePairs refs := by
              unfold activePairs
              rw [List.mem_map]
              exact ⟨r, List.mem_filter.mpr ⟨hr, hact⟩, rfl⟩
            have : validatedHere g (activePairs refs) r = true := by
              unfold validatedHere
              rw [List.any_eq_true]
              exact ⟨(r.inviter_id, r.invited_id), hmem, by simp [hpv]⟩
            rw [this] at hv
            exact Bool.true_eq_false.mp hv

/-- **C1**: after a full validation pass, every row's `is_validated` flag
holds exactly when the row is active and both inviter and invitee are found
in the roster with the Resident role; and the reset phase clears every
row's `is_validated` flag first, so no stale positive survives. Rows are
assumed pairwise distinct in their `(inviter_id, invited_id)` columns, the
data model's one-row-per-pair shape. -/
theorem validation_pass_validates_iff (g : Guild) (now : Nat) (db : DB)
    (hrole : residentRoleExists g = true)
    (hdist : (db.referrals.map (fun r => (r.inviter_id, r.invited_id))).Nodup) :
    (∀ r ∈ db.referrals.map resetRow, r.is_validated = false) ∧
    ∀ r ∈ (validateReferrals g now db).referrals,
      r.is_validated =
        (r.is_member_active &&
          (memberIsResident g r.inviter_id && memberIsResident g r.invited_id)) := by
  constructor
  · intro r hr
    rw [List.mem_map] at hr
    obtain ⟨r0, _, hre⟩ := hr
    rw [← hre]
    rfl
  · intro r hr
    rw [validateReferrals_referrals_closed g now db hrole, List.mem_map] at hr
    obtain ⟨r0, hr0, hre⟩ := hr
    subst hre
    rw [validateRowClosed_active, validateRowClosed_inviter, validateRowClosed_invited,
        ← pairValidated_eq, ← validatedHere_activePairs g db.referrals hdist r0 hr0]
    exact validateRowClosed_validated g _ r0

/-- C1 witness: a two-row table (one validated pair, one pair whose invitee
is role-less) evaluated concretely. -/
theorem validation_pass_validates_iff_witness :
    residentRoleExists ⟨["Resident"], [⟨1, "a", ["Resident"]⟩, ⟨2, "b", ["Resident"]⟩,
        ⟨3, "c", []⟩]⟩ = true ∧
    ∀ r ∈ (validateReferrals
        ⟨["Resident"], [⟨1, "a", ["Resident"]⟩, ⟨2, "b", ["Resident"]⟩, ⟨3, "c", []⟩]⟩ 7
        ⟨[⟨1, "a", 2, "b", "x", 0, false, false, true, false⟩,
          ⟨1, "a", 3, "c", "y", 0, true, true, true, true⟩], []⟩).referrals,
      r.is_validated =
        (r.is_member_active &&
          (memberIsResident ⟨["Resident"], [⟨1, "a", ["Resident"]⟩, ⟨2, "b", ["Resident"]⟩,
              ⟨3, "c", []⟩]⟩ r.inviter_id &&
           memberIsResident ⟨["Resident"], [⟨1, "a", ["Resident"]⟩, ⟨2, "b", ["Resident"]⟩,
              ⟨3, "c", []⟩]⟩ r.invited_id)) :=
  ⟨by decide,
   (validation_pass_validates_iff _ 7 _ (by decide) (by decide)).2⟩

/-- **C10**: the automatic validation pass overwrites
`was_previous_resident` on every row, inactive rows included: the reset
phase clears it everywhere, and afterwards it is `true` exactly on the rows
the pass validated, so a value recorded at leave or rejoin time never
survives the pass unless that row is validated in it. -/
theorem validation_overwrites_wpr (g : Guild) (now : Nat) (db : DB)
    (hrole : residentRoleExists g = true) :
    (∀ r ∈ db.referrals.map resetRow, r.was_previous_resident = false) ∧
    ∀ r ∈ (validateReferrals g now db).referrals,
      r.was_previous_resident = r.is_validated := by
  constructor
  · intro r hr
    rw [List.mem_map] at hr
    obtain ⟨r0, _, hre⟩ := hr
    rw [← hre]
    rfl
  · intro r hr
    rw [validateReferrals_referrals_closed g now db hrole, List.mem_map] at hr
    obtain ⟨r0, hr0, hre⟩ := hr
    subst hre
    rw [validateRowClosed_wpr, validateRowClosed_validated]

/-- C10 witness: a single inactive row carrying `was_previous_resident =
true` loses the flag in a pass that validates nothing. -/
theorem validation_overwrites_wpr_witness :
    residentRoleExists ⟨["Resident"], []⟩ = true ∧
    (∀ r ∈ (validateReferrals ⟨["Resident"], []⟩ 3
        ⟨[⟨4, "d", 5, "e", "z", 1, false, false, false, true⟩], []⟩).referrals,
      r.was_previous_resident = r.is_validated) ∧
    (validateReferrals ⟨["Resident"], []⟩ 3
        ⟨[⟨4, "d", 5, "e", "z", 1, false, false, false, true⟩], []⟩).referrals =
      [⟨4, "d", 5, "e", "z", 1, false, false, false, false⟩] :=
  ⟨by decide,
   (validation_overwrites_wpr ⟨["Resident"], []⟩ 3
      ⟨[⟨4, "d", 5, "e", "z", 1, false, false, false, true⟩], []⟩ (by decide)).2,
   by decide⟩

/-- C8 counterexample: with the Resident role present, an empty roster and
a single active row carrying `was_previous_resident = true`, the admin
command keeps the flag while `validate_referrals` clears it, so the two
triggers leave different referral tables. -/
theorem admin_validate_differs :
    (validateReferralsCommand ⟨["Resident"], []⟩
        ⟨[⟨1, "a", 2, "b", "x", 0, false, false, true, true⟩], []⟩).referrals ≠
      (validateReferrals ⟨["Resident"], []⟩ 0
        ⟨[⟨1, "a", 2, "b", "x", 0, false, false, true, true⟩], []⟩).referrals := by
  decide

/-- **C8 (amended)**: all four triggers run the same pass as far as
`is_validated` and `has_resident_role` are concerned — on any state and
roster the admin command and `validate_referrals` produce referral tables
that agree on every column except `was_previous_resident`, which the
command leaves untouched while the automatic pass recomputes it; and the
admin command never appends `member_history` rows, while the automatic
pass may. -/
theorem admin_validate_agrees_modulo_wpr (g : Guild) (now : Nat) (db : DB) :
    (validateReferralsCommand g db).referrals.map stripWPR =
      (validateReferrals g now db).referrals.map stripWPR ∧
    (validateReferralsCommand g db).history = db.history := by
  refine ⟨?_, validateReferralsCommand_history g db⟩
  by_cases h : residentRoleExists g = true
  · rw [validateReferralsCommand_referrals_closed g db h,
        validateReferrals_referrals_closed g now db h, List.map_map, List.map_map]
    apply List.map_congr_left
    intro r _
    show stripWPR (commandRowClosed g (activePairs db.referrals) r) =
      stripWPR (validateRowClosed g (activePairs db.referrals) r)
    unfold commandRowClosed validateRowClosed
    cases hc : validatedHere g (activePairs db.referrals) r
    · rfl
    · rfl
  · rw [Bool.not_eq_true] at h
    rw [validateReferralsCommand_no_role g db h, validateReferrals_no_role g now db h]

/-- C2 counterexample: member 1 leaves; the only referral row has member 1
as the inviter (invitee is member 2), and `on_member_remove` leaves its
`is_member_active` flag untouched, contradicting "either inviter or
invitee". -/
theorem member_remove_misses_inviter_rows :
    ¬ (∀ r ∈ (onMemberRemove ⟨1, "a", ["Resident"]⟩ 5
          ⟨[⟨1, "a", 2, "b", "x", 0, true, true, true, false⟩], []⟩).referrals,
        r.inviter_id = 1 ∨ r.invited_id = 1 →
          r.is_member_active = false ∧ r.is_validated = false) := by
  decide

/-- **C2 (amended)**: when a member leaves, `on_member_remove` sets
`is_member_active = false` and `is_validated = false` on every referral row
in which the leaver is the **invitee** (also recording whether the leaver
held Resident in `was_previous_resident`); rows in which the leaver appears
only as the inviter are left untouched by the handler's own update. -/
theorem member_remove_deactivates_invitee_rows (m : Member) (now : Nat) (db : DB) :
    (∀ r ∈ (onMemberRemove m now db).referrals,
        r.invited_id = m.id → r.is_member_active = false ∧ r.is_validated = false) ∧
    (onMemberRemove m now db).referrals =
      db.referrals.map (fun r =>
        if r.invited_id = m.id then
          { r with is_validated := false, is_member_active := false,
                   was_previous_resident := m.roles.contains "Resident" }
        else r) := by
  have hrow : ∀ r : Referral,
      leaveRow (m.roles.contains "Resident") m.id r =
        if r.invited_id = m.id then
          { r with is_validated := false, is_member_active := false,
                   was_previous_resident := m.roles.contains "Resident" }
        else r := by
    intro r
    unfold leaveRow
    by_cases h : r.invited_id = m.id
    · rw [if_pos h, if_pos]
      rw [Nat.beq_eq_true_eq]
      exact h
    · rw [if_neg h, if_neg]
      rw [Nat.beq_eq_true_eq]
      exact h
  constructor
  · intro r hr he
    show r.is_member_active = false ∧ r.is_validated = false
    have : r ∈ db.referrals.map (leaveRow (m.roles.contains "Resident") m.id) := hr
    rw [List.mem_map] at this
    obtain ⟨r0, _, hre⟩ := this
    rw [hrow r0] at hre
    by_cases h0 : r0.invited_id = m.id
    · rw [if_pos h0] at hre
      rw [← hre]
      exact ⟨rfl, rfl⟩
    · rw [if_neg h0] at hre
      subst hre
      exact absurd he h0
  · show db.referrals.map (leaveRow (m.roles.contains "Resident") m.id) = _
    exact List.map_congr_left (fun r _ => hrow r)

/-- C2 witness: the row of the leaving invitee, evaluated concretely after
the handler runs. -/
theorem member_remove_deactivates_invitee_rows_witness :
    ((⟨1, "a", 2, "b", "x", 0, false, true, false, true⟩ : Referral).is_member_active = false ∧
     (⟨1, "a", 2, "b", "x", 0, false, true, false, true⟩ : Referral).is_validated = false) :=
  (member_remove_deactivates_invitee_rows ⟨2, "b", ["Resident"]⟩ 5
      ⟨[⟨1, "a", 2, "b", "x", 0, true, true, true, false⟩], []⟩).1
    ⟨1, "a", 2, "b", "x", 0, false, true, false, true⟩ (by decide) (by decide)

/-- With an existing record for the invitee, the join handler only runs the
reactivation update, whatever the attribution diff returns. -/
theorem onMemberJoin_referrals_of_prev (m : Member) (invitesAfter cache : List Invite)
    (now : Nat) (db : DB) (hprev : hasPreviousRecord db.referrals m.id = true) :
    (onMemberJoin m invitesAfter cache now db).referrals =
      db.referrals.map (reactivateRow (wasResidentBefore db.history m.id) m.id) := by
  unfold onMemberJoin
  rw [hprev]
  cases findInviteUsed cache invitesAfter <;> simp

/-- **C4**: when a member joins and a referral row already exists for their
id, the handler inserts no new row — the table's row count is unchanged —
and the existing row is set to `is_member_active = true`,
`is_validated = false`, regardless of which invite the attribution diff
identifies. -/
theorem rejoin_reactivates_without_insert (m : Member) (invitesAfter cache : List Invite)
    (now : Nat) (db : DB) (hprev : hasPreviousRecord db.referrals m.id = true) :
    (onMemberJoin m invitesAfter cache now db).referrals.length = db.referrals.length ∧
    ∀ r ∈ (onMemberJoin m invitesAfter cache now db).referrals,
      r.invited_id = m.id → r.is_member_active = true ∧ r.is_validated = false := by
  rw [onMemberJoin_referrals_of_prev m invitesAfter cache now db hprev]
  constructor
  · exact List.length_map _ _
  · intro r hr he
    rw [List.mem_map] at hr
    obtain ⟨r0, _, hre⟩ := hr
    unfold reactivateRow at hre
    by_cases h0 : (r0.invited_id == m.id) = true
    · rw [if_pos h0] at hre
      rw [← hre]
      exact ⟨rfl, rfl⟩
    · rw [if_neg h0] at hre
      subst hre
      rw [Nat.beq_eq_true_eq] at h0
      exact absurd he h0

/-- C4 witness: member 2 rejoins through an invite whose count increased;
the single existing row is reactivated and no second row appears. -/
theorem rejoin_reactivates_without_insert_witness :
    hasPreviousRecord
        [⟨1, "a", 2, "b", "x", 0, true, true, false, true⟩] 2 = true ∧
    (onMemberJoin ⟨2, "b", []⟩ [⟨"x", 5, 1, "a"⟩] [⟨"x", 4, 1, "a"⟩] 9
        ⟨[⟨1, "a", 2, "b", "x", 0, true, true, false, true⟩], []⟩).referrals.length =
      ([⟨1, "a", 2, "b", "x", 0, true, true, false, true⟩] : List Referral).length :=
  ⟨by decide,
   (rejoin_reactivates_without_insert ⟨2, "b", []⟩ [⟨"x", 5, 1, "a"⟩] [⟨"x", 4, 1, "a"⟩] 9
      ⟨[⟨1, "a", 2, "b", "x", 0, true, true, false, true⟩], []⟩ (by decide)).1⟩

/-! ## Attribution resolver -/

/-- The attribution scan is the first match of the loop-body test over the
refreshed listing, in listing order. -/
theorem findInviteUsed_first_match (cache : List Invite) :
    ∀ after : List Invite,
    findInviteUsed cache after = after.find? (inviteIncreased cache) := by
  intro after
  induction after with
  | nil => rfl
  | cons i rest ih =>
      simp only [findInviteUsed]
      cases hc : cache.find? (fun x => x.code == i.code) with
      | none =>
          rw [List.find?_cons_of_pos]
          unfold inviteIncreased
          rw [hc]
      | some cj =>
          show (if cj.uses < i.uses then some i else findInviteUsed cache rest) =
            List.find? (inviteIncreased cache) (i :: rest)
          by_cases hu : cj.uses < i.uses
          · rw [if_pos hu, List.find?_cons_of_pos]
            unfold inviteIncreased
            rw [hc]
            exact decide_eq_true hu
          · have hni : inviteIncreased cache i = false := by
              unfold inviteIncreased
              rw [hc]
              exact decide_eq_false hu
            rw [if_neg hu, ih, List.find?_cons_of_neg]
            intro h
            rw [hni] at h
            exact Bool.noConfusion h

theorem findInviteUsed_unique_increase (cache : List Invite) (c : String) :
    ∀ after : List Invite,
    (∃ i ∈ after, i.code = c ∧ usesIncreasedStrict cache i = true) →
    (∀ j ∈ after, j.code ≠ c → sameCachedUses cache j = true) →
    ∃ r, findInviteUsed cache after = some r ∧ r.code = c := by
  intro after
  induction after with
  | nil =>
      intro hin _
      obtain ⟨i, hi, _⟩ := hin
      exact absurd hi (List.not_mem_nil i)
  | cons i rest ih =>
      intro hin hothers
      by_cases hic : i.code = c
      · cases hc : cache.find? (fun x => x.code == i.code) with
        | none =>
            refine ⟨i, ?_, hic⟩
            simp only [findInviteUsed, hc]
        | some cj =>
            by_cases hu : cj.uses < i.uses
            · refine ⟨i, ?_, hic⟩
              simp only [findInviteUsed, hc]
              rw [if_pos hu]
            · have hrec : findInviteUsed cache (i :: rest) = findInviteUsed cache rest := by
                simp only [findInviteUsed, hc]
                rw [if_neg hu]
              rw [hrec]
              apply ih
              · obtain ⟨w, hw, hwc, hstr⟩ := hin
                rcases List.mem_cons.mp hw with h | h
                · subst h
                  exfalso
                  unfold usesIncreasedStrict at hstr
                  rw [hc] at hstr
                  exact hu (of_decide_eq_true hstr)
                · exact ⟨w, h, hwc, hstr⟩
              · intro j hj hjc
                exact hothers j (List.mem_cons_of_mem i hj) hjc
      · have hsame := hothers i (List.mem_cons_self i rest) hic
        unfold sameCachedUses at hsame
        have hrec : findInviteUsed cache (i :: rest) = findInviteUsed cache rest := by
          cases hc : cache.find? (fun x => x.code == i.code) with
          | none =>
              simp only [hc] at hsame
              exact Bool.noConfusion hsame
          | some cj =>
              simp only [hc, Nat.beq_eq_true_eq] at hsame
              simp only [findInviteUsed, hc]
              rw [if_neg (by omega)]
        rw [hrec]
        apply ih
        · obtain ⟨w, hw, hwc, hstr⟩ := hin
          rcases List.mem_cons.mp hw with h | h
          · subst h
            exact absurd hwc hic
          · exact ⟨w, h, hwc, hstr⟩
        · intro j hj hjc
          exact hothers j (List.mem_cons_of_mem i hj) hjc

/-- **C3**: when exactly one code `c` shows a strictly larger use count in
the refreshed listing than in the cached snapshot and every other listed
invite is cached with an unchanged count, the attribution scan selects an
invite with code `c`; and in general the scan returns the first invite, in
refreshed-listing order, whose count exceeds its cached count or which has
no cached counterpart. -/
theorem attribution_selects_increased_code (cache after : List Invite) (c : String)
    (hin : ∃ i ∈ after, i.code = c ∧ usesIncreasedStrict cache i = true)
    (hothers : ∀ j ∈ after, j.code ≠ c → sameCachedUses cache j = true) :
    (∃ r, findInviteUsed cache after = some r ∧ r.code = c) ∧
    findInviteUsed cache after = after.find? (inviteIncreased cache) :=
  ⟨findInviteUsed_unique_increase cache c after hin hothers,
   findInviteUsed_first_match cache after⟩

/-- C3 witness: code "a" rose from 4 to 5, code "b" is unchanged and listed
first after the join; the scan still picks "a". -/
theorem attribution_selects_increased_code_witness :
    (∃ r, findInviteUsed [⟨"a", 4, 1, "x"⟩, ⟨"b", 2, 2, "y"⟩]
        [⟨"b", 2, 2, "y"⟩, ⟨"a", 5, 1, "x"⟩] = some r ∧ r.code = "a") :=
  (attribution_selects_increased_code [⟨"a", 4, 1, "x"⟩, ⟨"b", 2, 2, "y"⟩]
    [⟨"b", 2, 2, "y"⟩, ⟨"a", 5, 1, "x"⟩] "a" (by decide) (by decide)).1

/-! ## member_history append-only behaviour -/

theorem recordResidentHistory_append (now : Nat) (m : Member) (h : List HistoryEntry) :
    ∃ t, recordResidentHistory now m h = h ++ t := by
  unfold recordResidentHistory
  split
  · exact ⟨[], (List.append_nil h).symm⟩
  · exact ⟨_, rfl⟩

theorem validateStep_snd_append (g : Guild) (now : Nat)
    (st : List Referral × List HistoryEntry) (p : Nat × Nat) :
    ∃ t, (validateStep g now st p).2 = st.2 ++ t := by
  unfold validateStep
  cases getMember g p.1 with
  | none => exact ⟨[], (List.append_nil st.2).symm⟩
  | some inviter =>
      cases getMember g p.2 with
      | none => exact ⟨[], (List.append_nil st.2).symm⟩
      | some invited =>
          show ∃ t,
            (if (inviter.roles.contains "Resident" && invited.roles.contains "Resident") = true
              then (st.1.map (validateRowUpdate p.1 p.2),
                recordResidentHistory now invited (recordResidentHistory now inviter st.2))
              else st).2 = st.2 ++ t
          by_cases hres :
              (inviter.roles.contains "Resident" && invited.roles.contains "Resident") = true
          · rw [if_pos hres]
            obtain ⟨t1, h1⟩ := recordResidentHistory_append now inviter st.2
            obtain ⟨t2, h2⟩ :=
              recordResidentHistory_append now invited (recordResidentHistory now inviter st.2)
            refine ⟨t1 ++ t2, ?_⟩
            show recordResidentHistory now invited (recordResidentHistory now inviter st.2) =
              st.2 ++ (t1 ++ t2)
            rw [h2, h1, List.append_assoc]
          · rw [if_neg hres]
            exact ⟨[], (List.append_nil st.2).symm⟩

theorem foldl_validateStep_snd_append (g : Guild) (now : Nat) :
    ∀ (ps : List (Nat × Nat)) (refs : List Referral) (hist : List HistoryEntry),
    ∃ t, (ps.foldl (validateStep g now) (refs, hist)).2 = hist ++ t := by
  intro ps
  induction ps with
  | nil =>
      intro refs hist
      exact ⟨[], (List.append_nil hist).symm⟩
  | cons p ps ih =>
      intro refs hist
      have hstep : validateStep g now (refs, hist) p =
          ((validateStep g now (refs, hist) p).1, (validateStep g now (refs, hist) p).2) := rfl
      obtain ⟨t1, h1⟩ := validateStep_snd_append g now (refs, hist) p
      rw [List.foldl_cons, hstep, h1]
      dsimp only
      obtain ⟨t2, h2⟩ := ih (validateStep g now (refs, hist) p).1 (hist ++ t1)
      refine ⟨t1 ++ t2, ?_⟩
      rw [h2, List.append_assoc]

/-- C9 counterexample: the `!resethistory` admin command drops the
`member_history` table; an existing row is gone afterwards (here the guild
has nobody to repopulate from, so the table ends up empty). -/
theorem reset_history_deletes_rows :
    ¬ ((⟨1, "a", "join", 0, false⟩ : HistoryEntry) ∈
        (resetMemberHistory ⟨[], []⟩ 9
          ⟨[], [⟨1, "a", "join", 0, false⟩]⟩).history) := by
  decide

/-- **C9 (amended)**: every operation except the `!resethistory` admin
command treats `member_history` as append-only — the join and leave
handlers, the validation pass, the admin validation command and the
startup population all leave every pre-existing history row in place,
only ever appending a suffix; `reset_member_history` alone drops the
table before repopulating it. -/
theorem history_append_only (g : Guild) (m : Member) (invitesAfter cache : List Invite)
    (now : Nat) (db : DB) :
    (∃ t, (onMemberJoin m invitesAfter cache now db).history = db.history ++ t) ∧
    (∃ t, (onMemberRemove m now db).history = db.history ++ t) ∧
    (∃ t, (validateReferrals g now db).history = db.history ++ t) ∧
    (validateReferralsCommand g db).history = db.history ∧
    (∃ t, (populateMemberHistory g now db).history = db.history ++ t) := by
  refine ⟨?_, ?_, ?_, validateReferralsCommand_history g db, ?_⟩
  · refine ⟨[⟨m.id, m.name, "join", now, wasResidentBefore db.history m.id⟩], ?_⟩
    unfold onMemberJoin
    cases hasPreviousRecord db.referrals m.id <;>
      cases findInviteUsed cache invitesAfter <;> simp
  · exact ⟨[⟨m.id, m.name, "leave", now, m.roles.contains "Resident"⟩], rfl⟩
  · by_cases h : residentRoleExists g = true
    · simp only [validateReferrals, h, if_true]
      exact foldl_validateStep_snd_append g now _ _ db.history
    · rw [Bool.not_eq_true] at h
      rw [validateReferrals_no_role g now db h]
      exact ⟨[], (List.append_nil db.history).symm⟩
  · unfold populateMemberHistory
    split
    · exact ⟨[], (List.append_nil db.history).symm⟩
    · split
      · exact ⟨_, rfl⟩
      · exact ⟨[], (List.append_nil db.history).symm⟩

/-! ## One row per invitee -/

theorem oneRowPerInvitee_map (f : Referral → Referral)
    (hf : ∀ r, (f r).invited_id = r.invited_id) (l : List Referral)
    (h : oneRowPerInvitee l) : oneRowPerInvitee (l.map f) := by
  unfold oneRowPerInvitee
  exact h.map f (fun a b hab => by rw [hf a, hf b]; exact hab)

theorem reactivateRow_invited (w : Bool) (id : Nat) (r : Referral) :
    (reactivateRow w id r).invited_id = r.invited_id := by
  unfold reactivateRow
  split <;> rfl

theorem leaveRow_invited (w : Bool) (id : Nat) (r : Referral) :
    (leaveRow w id r).invited_id = r.invited_id := by
  unfold leaveRow
  split <;> rfl

theorem onMemberJoin_referrals_no_prev (m : Member) (invitesAfter cache : List Invite)
    (now : Nat) (db : DB) (hprev : hasPreviousRecord db.referrals m.id = false) :
    (onMemberJoin m invitesAfter cache now db).referrals =
      (match findInviteUsed cache invitesAfter with
       | some inv => db.referrals ++ [newReferral inv m now (wasResidentBefore db.history m.id)]
       | none => db.referrals) := by
  unfold onMemberJoin
  rw [hprev]
  cases findInviteUsed cache invitesAfter <;> simp

/-- **C5**: starting from a table with at most one row per invitee id, the
join handler, the leave handler and the validation pass each preserve that
shape — a re-join reactivates the existing row instead of inserting a
duplicate — and the shape implies the spec's invariant of at most one
`is_member_active = true` row per invitee id. -/
theorem one_active_row_invariant (g : Guild) (m : Member)
    (invitesAfter cache : List Invite) (now : Nat) (db : DB)
    (h : oneRowPerInvitee db.referrals) :
    oneRowPerInvitee (onMemberJoin m invitesAfter cache now db).referrals ∧
    oneRowPerInvitee (onMemberRemove m now db).referrals ∧
    oneRowPerInvitee (validateReferrals g now db).referrals ∧
    ∀ refs : List Referral, oneRowPerInvitee refs → oneActiveRowPerInvitee refs := by
  refine ⟨?_, ?_, ?_, ?_⟩
  · cases hprev : hasPreviousRecord db.referrals m.id with
    | true =>
        rw [onMemberJoin_referrals_of_prev m invitesAfter cache now db hprev]
        exact oneRowPerInvitee_map _ (reactivateRow_invited _ _) _ h
    | false =>
        rw [onMemberJoin_referrals_no_prev m invitesAfter cache now db hprev]
        cases findInviteUsed cache invitesAfter with
        | none => exact h
        | some inv =>
            show oneRowPerInvitee (db.referrals ++
              [newReferral inv m now (wasResidentBefore db.history m.id)])
            unfold oneRowPerInvitee
            rw [List.pairwise_append]
            refine ⟨h, List.pairwise_singleton _ _, ?_⟩
            intro r hr b hb
            rw [List.mem_singleton] at hb
            subst hb
            show r.invited_id ≠ m.id
            unfold hasPreviousRecord at hprev
            rw [← Bool.not_eq_true, List.any_eq_true] at hprev
            intro he
            exact hprev ⟨r, hr, by rw [Nat.beq_eq_true_eq]; exact he⟩
  · exact oneRowPerInvitee_map _ (leaveRow_invited _ _) _ h
  · by_cases hrole : residentRoleExists g = true
    · rw [validateReferrals_referrals_closed g now db hrole]
      exact oneRowPerInvitee_map _ (validateRowClosed_invited g _) _ h
    · rw [Bool.not_eq_true] at hrole
      rw [validateReferrals_no_role g now db hrole]
      exact h
  · intro refs hr
    exact hr.imp (fun hab => fun _ _ => hab)

/-- C5 witness: a two-row table with distinct invitees, pushed through the
join of member 2 (who already has a row). -/
theorem one_active_row_invariant_witness :
    oneRowPerInvitee
      [⟨1, "a", 2, "b", "x", 0, true, true, false, true⟩,
       ⟨1, "a", 3, "c", "y", 0, false, false, true, false⟩] ∧
    oneRowPerInvitee (onMemberJoin ⟨2, "b", []⟩ [⟨"x", 5, 1, "a"⟩] [⟨"x", 4, 1, "a"⟩] 9
      ⟨[⟨1, "a", 2, "b", "x", 0, true, true, false, true⟩,
        ⟨1, "a", 3, "c", "y", 0, false, false, true, false⟩], []⟩).referrals :=
  ⟨by decide,
   (one_active_row_invariant ⟨[], []⟩ ⟨2, "b", []⟩ [⟨"x", 5, 1, "a"⟩] [⟨"x", 4, 1, "a"⟩] 9
      ⟨[⟨1, "a", 2, "b", "x", 0, true, true, false, true⟩,
        ⟨1, "a", 3, "c", "y", 0, false, false, true, false⟩], []⟩ (by decide)).1⟩

/-! ## Leaderboard ordering and aggregation -/

theorem lbBefore_iff (a b : LBEntry) :
    lbBefore a b = true ↔
      (b.validated < a.validated ∨ (a.validated = b.validated ∧ b.total ≤ a.total)) := by
  unfold lbBefore
  simp [Bool.or_eq_true, Bool.and_eq_true, decide_eq_true_eq, Nat.beq_eq_true_eq]

theorem lbBefore_trans (a b c : LBEntry) :
    lbBefore a b = true → lbBefore b c = true → lbBefore a c = true := by
  rw [lbBefore_iff, lbBefore_iff, lbBefore_iff]
  omega

theorem lbBefore_total (a b : LBEntry) : (lbBefore a b || lbBefore b a) = true := by
  rw [Bool.or_eq_true, lbBefore_iff, lbBefore_iff]
  omega

theorem count_filter_eq (refs : List Referral) (k : Nat × String)
    (hk : denylisted k.1 = false) (flag : Referral → Bool) :
    (((refs.filter (fun r => !denylisted r.inviter_id)).filter
        (fun r => r.inviter_id == k.1 && r.inviter_name == k.2)).filter flag).length =
      (refs.filter (fun r =>
        r.inviter_id == k.1 && (r.inviter_name == k.2 && flag r))).length := by
  rw [List.filter_filter, List.filter_filter]
  congr 1
  apply List.filter_congr
  intro r _
  by_cases hr : (r.inviter_id == k.1) = true
  · have hdeny : denylisted r.inviter_id = false := by
      rw [Nat.beq_eq_true_eq] at hr
      rw [hr]
      exact hk
    cases hflag : flag r <;> cases hname : (r.inviter_name == k.2) <;>
      simp [hr, hdeny, hflag, hname]
  · rw [Bool.not_eq_true] at hr
    simp [hr]

/-- Every output entry of the leaderboard query is the aggregate of some
non-denylisted group key with a positive active total. -/
theorem leaderboardQuery_mem (refs : List Referral) (e : LBEntry)
    (he : e ∈ leaderboardQuery refs) :
    ∃ k, e = aggFor (refs.filter (fun r => !denylisted r.inviter_id)) k ∧
      denylisted k.1 = false ∧ 0 < e.total := by
  unfold leaderboardQuery at he
  have h1 : e ∈ (((refs.filter (fun r => !denylisted r.inviter_id)).map
      (fun r => (r.inviter_id, r.inviter_name))).dedup.map
        (aggFor (refs.filter (fun r => !denylisted r.inviter_id)))).filter
          (fun e => 0 < e.total) :=
    (List.perm_insertionSort lbRel _).mem_iff.mp (List.mem_of_mem_take he)
  rw [List.mem_filter] at h1
  obtain ⟨h2, h3⟩ := h1
  rw [List.mem_map] at h2
  obtain ⟨k, hk, hke⟩ := h2
  rw [List.mem_dedup, List.mem_map] at hk
  obtain ⟨r, hr, hrk⟩ := hk
  rw [List.mem_filter] at hr
  refine ⟨k, hke.symm, ?_, of_decide_eq_true h3⟩
  have hx : (!denylisted r.inviter_id) = true := hr.2
  rw [Bool.not_eq_eq_eq_not] at hx
  have hk1 : k.1 = r.inviter_id := by rw [← hrk]
  rw [hk1]
  exact hx

/-- **C6**: the leaderboard query keeps at most 10 entries, excludes the
two hard-coded denylisted inviter ids, orders by validated count
descending with total count descending as tie-break, and each entry's
validated/pending/total counts are the active-row aggregates of its
inviter group; a strictly larger validated count always ranks first
regardless of totals, and the total is the tie-break exactly when the
validated counts are equal. -/
theorem leaderboard_query_contract (refs : List Referral) :
    (leaderboardQuery refs).length ≤ 10 ∧
    (leaderboardQuery refs).Pairwise (fun a b => lbBefore a b = true) ∧
    (∀ e ∈ leaderboardQuery refs,
        denylisted e.inviter_id = false ∧
        0 < e.total ∧
        e.validated = (refs.filter (fun r => r.inviter_id == e.inviter_id &&
            (r.inviter_name == e.inviter_name &&
              (r.is_validated && r.is_member_active)))).length ∧
        e.pending = (refs.filter (fun r => r.inviter_id == e.inviter_id &&
            (r.inviter_name == e.inviter_name &&
              (!r.is_validated && r.is_member_active)))).length ∧
        e.total = (refs.filter (fun r => r.inviter_id == e.inviter_id &&
            (r.inviter_name == e.inviter_name && r.is_member_active))).length) ∧
    (∀ a b : LBEntry, b.validated < a.validated →
        (lbBefore a b = true ∧ lbBefore b a = false)) ∧
    (∀ a b : LBEntry, a.validated = b.validated →
        (lbBefore a b = true ↔ b.total ≤ a.total)) := by
  refine ⟨?_, ?_, ?_, ?_, ?_⟩
  · unfold leaderboardQuery
    exact List.length_take_le 10 _
  · unfold leaderboardQuery
    exact List.Pairwise.sublist (List.take_sublist _ _)
      (List.sorted_insertionSort lbRel _)
  · intro e he
    obtain ⟨k, hek, hkd, hpos⟩ := leaderboardQuery_mem refs e he
    have hid : e.inviter_id = k.1 := by rw [hek]; rfl
    have hname : e.inviter_name = k.2 := by rw [hek]; rfl
    refine ⟨by rw [hid]; exact hkd, hpos, ?_, ?_, ?_⟩
    · rw [hid, hname, hek]
      exact count_filter_eq refs k hkd (fun r => r.is_validated && r.is_member_active)
    · rw [hid, hname, hek]
      exact count_filter_eq refs k hkd (fun r => !r.is_validated && r.is_member_active)
    · rw [hid, hname, hek]
      exact count_filter_eq refs k hkd (fun r => r.is_member_active)
  · intro a b h
    constructor
    · rw [lbBefore_iff]
      omega
    · cases hc : lbBefore b a with
      | false => rfl
      | true =>
          rw [lbBefore_iff] at hc
          omega
  · intro a b h
    rw [lbBefore_iff]
    constructor
    · intro hx
      omega
    · intro hx
      omega

/-- C6 witness: the contract evaluated concretely — a one-row table yields
the single aggregated non-denylisted entry; 3 validated of 2 total ranks
above 2 validated of 4 total; with equal validated counts the larger total
ranks first. -/
theorem leaderboard_query_contract_witness :
    (leaderboardQuery [⟨7, "g", 8, "h", "q", 0, true, true, true, false⟩]).length ≤ 10 ∧
    denylisted (⟨7, "g", 1, 0, 1⟩ : LBEntry).inviter_id = false ∧
    (lbBefore ⟨1, "", 3, 0, 2⟩ ⟨2, "", 2, 0, 4⟩ = true ∧
      lbBefore ⟨2, "", 2, 0, 4⟩ ⟨1, "", 3, 0, 2⟩ = false) ∧
    (lbBefore ⟨1, "", 3, 0, 5⟩ ⟨2, "", 3, 0, 2⟩ = true ↔
      (⟨2, "", 3, 0, 2⟩ : LBEntry).total ≤ (⟨1, "", 3, 0, 5⟩ : LBEntry).total) :=
  ⟨(leaderboard_query_contract [⟨7, "g", 8, "h", "q", 0, true, true, true, false⟩]).1,
   ((leaderboard_query_contract [⟨7, "g", 8, "h", "q", 0, true, true, true, false⟩]).2.2.1
      ⟨7, "g", 1, 0, 1⟩ (by decide)).1,
   (leaderboard_query_contract []).2.2.2.1 ⟨1, "", 3, 0, 2⟩ ⟨2, "", 2, 0, 4⟩ (by decide),
   (leaderboard_query_contract []).2.2.2.2 ⟨1, "", 3, 0, 5⟩ ⟨2, "", 3, 0, 2⟩ (by decide)⟩

end NRRP
